import Mathlib

namespace ObjectCompare

/- Shallow embedding of `utils/compareObjects.ts`.

A runtime JavaScript value as handled by the library: `undefined`, `null`,
booleans, numbers, strings, `Date` instances, arrays and plain objects.
Arrays, objects and dates carry a reference identifier (`Nat`) modelling
JavaScript object identity: `===` on two non-primitive values is true iff they
are the same reference.  Element lists and field lists are mutually inductive
with `Value` so that the recursive comparator is structurally recursive. -/
mutual
inductive Value where
  | vUndefined : Value
  | vNull : Value
  | vBool : Bool → Value
  | vNum : Int → Value
  | vStr : String → Value
  | vDate : Nat → Int → Value
  | vArr : Nat → ValueList → Value
  | vObj : Nat → FieldList → Value

inductive ValueList where
  | nil : ValueList
  | cons : Value → ValueList → ValueList

inductive FieldList where
  | nil : FieldList
  | cons : String → Value → FieldList → FieldList
end

def ValueList.length : ValueList → Nat
  | .nil => 0
  | .cons _ vs => vs.length + 1

def FieldList.length : FieldList → Nat
  | .nil => 0
  | .cons _ _ fs => fs.length + 1

def ValueList.toList : ValueList → List Value
  | .nil => []
  | .cons v vs => v :: vs.toList

def FieldList.toList : FieldList → List (String × Value)
  | .nil => []
  | .cons k v fs => (k, v) :: fs.toList

def ValueList.ofList : List Value → ValueList
  | [] => .nil
  | v :: vs => .cons v (ValueList.ofList vs)

def FieldList.ofList : List (String × Value) → FieldList
  | [] => .nil
  | (k, v) :: fs => .cons k v (FieldList.ofList fs)

/-- Convenience constructor for a concrete object value. -/
def mkObj (r : Nat) (fs : List (String × Value)) : Value := .vObj r (FieldList.ofList fs)

/-- Convenience constructor for a concrete array value. -/
def mkArr (r : Nat) (es : List Value) : Value := .vArr r (ValueList.ofList es)

/-- Source `isPrimitive`: null, undefined, string, number, boolean, or a `Date`. -/
def isPrimitive : Value → Bool
  | .vNull | .vUndefined | .vStr _ | .vNum _ | .vBool _ | .vDate _ _ => true
  | _ => false

/-- JavaScript strict equality `===`: value equality on primitives, reference
equality on dates, arrays and objects (`null === undefined` is false). -/
def strictEq : Value → Value → Bool
  | .vUndefined, .vUndefined => true
  | .vNull, .vNull => true
  | .vBool a, .vBool b => a == b
  | .vNum a, .vNum b => a == b
  | .vStr a, .vStr b => a == b
  | .vDate r _, .vDate s _ => r == s
  | .vArr r _, .vArr s _ => r == s
  | .vObj r _, .vObj s _ => r == s
  | _, _ => false

/-- First field of the list with the given key, `undefined` when missing. -/
def fieldLookup : FieldList → String → Value
  | .nil, _ => .vUndefined
  | .cons k v fs, key => if k == key then v else fieldLookup fs key

/-- Array indexing by property string: `es[key]` yields element `i` when `key` is
the canonical decimal numeral of an index `i < length`, `undefined` otherwise. -/
def arrLookup : Nat → ValueList → String → Value
  | _, .nil, _ => .vUndefined
  | i, .cons v vs, key => if toString i == key then v else arrLookup (i + 1) vs key

/-- Property access `v[k]` restricted to own enumerable properties; a missing key
reads as `undefined`, exactly like the source's lookups on plain records. -/
def getKey : Value → String → Value
  | .vObj _ fs, k => fieldLookup fs k
  | .vArr _ es, k => arrLookup 0 es k
  | _, _ => .vUndefined

/-- The index-string entries of an array: element `i` is own property `"i"`. -/
def withIndices (i : Nat) : List Value → List (String × Value)
  | [] => []
  | v :: vs => (toString i, v) :: withIndices (i + 1) vs

/-- Own enumerable (key, value) entries of a value, as `Object.keys` and property
enumeration see them: an object's fields, an array's index-string entries,
nothing otherwise (`Object.keys` of a `Date` is empty). -/
def jsEntries : Value → List (String × Value)
  | .vObj _ fs => fs.toList
  | .vArr _ es => withIndices 0 es.toList
  | _ => []

/-- `Object.keys v` (JavaScript objects have no duplicate keys, so these are the
first components of `jsEntries`). -/
def jsKeys (v : Value) : List String := (jsEntries v).map Prod.fst

/- Source `areEqual` (a closure over the `deep` option), by mutual structural
recursion.  `areEqualElems` is `current.every((value, index) => areEqual(value,
original[index]))` (only invoked after the length equality check, so the lists in
the recursion always have equal length); `areEqualObjEntries` and
`areEqualArrEntries` are `currentKeys.every((key) => areEqual(current[key],
original[key]))`, specialised to `current` being an object resp. an array —
both shapes reach the source's object branch, since `typeof x === "object"`
holds for arrays as well.  Since every modelled non-primitive value satisfies
`typeof x === "object" && x !== null`, the source's final
`return current === original` fallback (the last match arm) is unreachable
for modelled values. -/
mutual
def areEqual (deep : Bool) (current original : Value) : Bool :=
  -- First check if either value is primitive
  if isPrimitive current || isPrimitive original then
    match current, original with
    -- Handle Date objects specially
    | .vDate _ t, .vDate _ u => t == u
    -- Direct comparison for other primitives
    | _, _ => strictEq current original
  else
    match current, original with
    -- Handle Arrays
    | .vArr rc ec, .vArr ro eo =>
      if ec.length != eo.length then false
      else if !deep then rc == ro
      else areEqualElems deep ec eo
    -- Handle Objects: current is an array, original an object
    | .vArr rc ec, o =>
      if !deep then strictEq (.vArr rc ec) o
      else if ec.length != (jsKeys o).length then false
      else areEqualArrEntries deep 0 ec o
    -- Handle Objects: current is an object
    | .vObj rc fs, o =>
      if !deep then strictEq (.vObj rc fs) o
      else if fs.length != (jsKeys o).length then false
      else areEqualObjEntries deep fs o
    -- Fallback for any other cases (unreachable: current would be primitive)
    | c, o => strictEq c o
termination_by structural current

def areEqualElems (deep : Bool) (current original : ValueList) : Bool :=
  match current, original with
  | .nil, _ => true
  | .cons v vs, .cons w ws => areEqual deep v w && areEqualElems deep vs ws
  | .cons _ _, .nil => true -- unreachable: lengths are equal when invoked
termination_by structural current

def areEqualArrEntries (deep : Bool) (i : Nat) (current : ValueList) (original : Value) : Bool :=
  match current with
  | .nil => true
  | .cons v vs =>
      areEqual deep v (getKey original (toString i)) && areEqualArrEntries deep (i + 1) vs original
termination_by structural current

def areEqualObjEntries (deep : Bool) (current : FieldList) (original : Value) : Bool :=
  match current with
  | .nil => true
  | .cons k v fs => areEqual deep v (getKey original k) && areEqualObjEntries deep fs original
termination_by structural current
end

/-- One invocation's configuration (`CompareOptions<T>` in the source), with the
source's default values.  A custom comparator is a binary predicate over
(current field value, original field value); the comparator mapping is an
association list keyed by field name. -/
structure CompareOptions where
  includeNullish : Bool := false
  customComparators : List (String × (Value → Value → Bool)) := []
  deep : Bool := true
  ignoreFields : List String := []

/-- JavaScript falsiness (`!v` is true): undefined, null, `false`, `0`, `""`. -/
def isFalsy : Value → Bool
  | .vUndefined | .vNull => true
  | .vBool b => !b
  | .vNum n => n == 0
  | .vStr s => s == ""
  | _ => false

/-- `typeof v === "object"`: true for null, dates, arrays and plain objects. -/
def isTypeofObject : Value → Bool
  | .vNull | .vDate _ _ | .vArr _ _ | .vObj _ _ => true
  | _ => false

/-- `v === undefined || v === null`. -/
def isNullish : Value → Bool
  | .vUndefined | .vNull => true
  | _ => false

/-- Body of the source's `Object.keys(currentValue).forEach` loop, applied to one
entry `(key, currentValue[key])` of `currentValue` (JavaScript objects have no
duplicate keys, so iterating entries coincides with iterating keys and looking
each one up), threading the accumulated `changedFields` mapping. -/
def diffStep (options : CompareOptions) (originalValue : Value)
    (changedFields : List (String × Value)) (entry : String × Value) :
    List (String × Value) :=
  -- Skip ignored fields
  if options.ignoreFields.contains entry.1 then changedFields
  else
    -- Use custom comparator if provided
    match options.customComparators.find? (fun p => p.1 == entry.1) with
    | some comparator =>
        if comparator.2 entry.2 (getKey originalValue entry.1) then changedFields
        else changedFields ++ [(entry.1, entry.2)]
    | none =>
        -- Skip if both values are nullish and we're not including nullish values
        if !options.includeNullish && isNullish entry.2
            && isNullish (getKey originalValue entry.1) then
          changedFields
        -- Compare values
        else if areEqual options.deep entry.2 (getKey originalValue entry.1) then
          changedFields
        else changedFields ++ [(entry.1, entry.2)]

/-- Source `getChangedFields`: validates that both inputs are truthy values of
object runtime type, then folds the field loop over `currentValue`'s entries.
The thrown `Error` is modelled as `Except.error` with the source's message. -/
def getChangedFields (currentValue originalValue : Value) (options : CompareOptions) :
    Except String (List (String × Value)) :=
  if isFalsy currentValue || isFalsy originalValue
      || !isTypeofObject currentValue || !isTypeofObject originalValue then
    Except.error "Both currentValue and originalValue must be objects"
  else
    Except.ok ((jsEntries currentValue).foldl (diffStep options originalValue) [])

/-- Source `hasChanges`: true iff `getChangedFields` returns a non-empty mapping;
any error from `getChangedFields` propagates. -/
def hasChanges (currentValue originalValue : Value) (options : CompareOptions) :
    Except String Bool :=
  (getChangedFields currentValue originalValue options).map
    (fun changedFields => decide (0 < changedFields.length))

theorem diffStep_acc (options : CompareOptions) (o : Value)
    (acc : List (String × Value)) (e : String × Value) :
    diffStep options o acc e = acc ++ diffStep options o [] e := by
  unfold diffStep
  split
  · simp
  · split
    · split <;> simp
    · split
      · simp
      · split <;> simp

theorem foldl_diffStep_acc (options : CompareOptions) (o : Value) :
    ∀ (l : List (String × Value)) (acc : List (String × Value)),
      l.foldl (diffStep options o) acc = acc ++ l.foldl (diffStep options o) [] := by
  intro l
  induction l with
  | nil => intro acc; simp
  | cons e l ih =>
    intro acc
    simp only [List.foldl_cons]
    rw [ih (diffStep options o acc e), ih (diffStep options o [] e),
      diffStep_acc options o acc e, List.append_assoc]

theorem mem_foldl_diffStep {options : CompareOptions} {o : Value}
    {l : List (String × Value)} {k : String} {v : Value} :
    (k, v) ∈ l.foldl (diffStep options o) [] ↔
      ∃ e ∈ l, (k, v) ∈ diffStep options o [] e := by
  induction l with
  | nil => simp
  | cons e l ih =>
    simp only [List.foldl_cons]
    rw [foldl_diffStep_acc options o l (diffStep options o [] e)]
    simp [List.mem_append, ih]

theorem diffStep_nil_eq (options : CompareOptions) (o : Value) (e : String × Value) :
    diffStep options o [] e = [] ∨ diffStep options o [] e = [e] := by
  unfold diffStep
  split
  · exact Or.inl rfl
  · split
    · split
      · exact Or.inl rfl
      · exact Or.inr (by simp)
    · split
      · exact Or.inl rfl
      · split
        · exact Or.inl rfl
        · exact Or.inr (by simp)

/-- List-style induction principle for `FieldList` (the mutual recursor has
multiple motives, so the `induction` tactic cannot use it directly). -/
theorem fieldListInduction {motive : FieldList → Prop} (fs : FieldList)
    (hnil : motive .nil)
    (hcons : ∀ (k : String) (v : Value) (fs : FieldList), motive fs → motive (.cons k v fs)) :
    motive fs :=
  match fs with
  | .nil => hnil
  | .cons k v fs => hcons k v fs (fieldListInduction fs hnil hcons)
termination_by structural fs

/-- List-style induction principle for `ValueList`. -/
theorem valueListInduction {motive : ValueList → Prop} (es : ValueList)
    (hnil : motive .nil)
    (hcons : ∀ (v : Value) (vs : ValueList), motive vs → motive (.cons v vs)) :
    motive es :=
  match es with
  | .nil => hnil
  | .cons v vs => hcons v vs (valueListInduction vs hnil hcons)
termination_by structural es

theorem fieldLookup_eq_of_mem {fs : FieldList} {k : String} {v : Value}
    (hnd : (fs.toList.map Prod.fst).Nodup) (h : (k, v) ∈ fs.toList) :
    fieldLookup fs k = v := by
  induction fs using fieldListInduction with
  | hnil => simp [FieldList.toList] at h
  | hcons k1 v1 fs ih =>
    simp only [FieldList.toList, List.map_cons, List.nodup_cons, List.mem_cons] at hnd h
    rcases h with h | h
    · injection h with h1 h2
      subst h1; subst h2
      simp [fieldLookup]
    · have hk : k1 ≠ k := by
        intro he
        exact hnd.1 (he ▸ List.mem_map_of_mem Prod.fst h)
      simp only [fieldLookup, beq_eq_false_iff_ne.mpr hk, if_false]
      exact ih hnd.2 h

theorem getChangedFields_ok {c o : Value} {options : CompareOptions}
    {res : List (String × Value)}
    (h : getChangedFields c o options = Except.ok res) :
    res = (jsEntries c).foldl (diffStep options o) [] := by
  unfold getChangedFields at h
  split at h
  · exact absurd h (by simp)
  · injection h with h
    exact h.symm

/-- C1: for every pair of inputs and every configuration, every key of the
mapping returned by `getChangedFields` is a key of `current`; a field present
only in `original` never appears in the result. -/
theorem getChangedFields_keys_subset (c o : Value) (options : CompareOptions)
    (res : List (String × Value)) (hres : getChangedFields c o options = Except.ok res)
    (k : String) (v : Value) (hmem : (k, v) ∈ res) : k ∈ jsKeys c := by
  rw [getChangedFields_ok hres] at hmem
  obtain ⟨e, he, hin⟩ := mem_foldl_diffStep.mp hmem
  rcases diffStep_nil_eq options o e with h0 | h0
  · rw [h0] at hin
    simp at hin
  · rw [h0] at hin
    have heq : e = (k, v) := (List.mem_singleton.mp hin).symm
    rw [heq] at he
    exact List.mem_map_of_mem Prod.fst he

theorem getChangedFields_keys_subset_witness :
    "a" ∈ jsKeys (mkObj 0 [("a", Value.vNum 1)]) :=
  getChangedFields_keys_subset (mkObj 0 [("a", Value.vNum 1)]) (mkObj 1 []) {}
    [("a", Value.vNum 1)] rfl "a" (Value.vNum 1) (List.mem_singleton.mpr rfl)

/-- A value the spec's amended validation rule accepts at top level: a truthy
value of object runtime type — a record, an array, or a date instance.
(`null` has object runtime type but is falsy; records, arrays and dates are
always truthy.)  Stated from the amended claim's words, to be compared with
the source's guard in `getChangedFields`. -/
def isObjectLike : Value → Bool
  | .vObj _ _ | .vArr _ _ | .vDate _ _ => true
  | _ => false

/-- C2 counterexample: an array passed at the top level is NOT rejected —
`typeof array === "object"` and arrays are truthy, so validation passes and the
call returns a result instead of raising, contradicting the claim that a
top-level array raises InvalidArgument. -/
theorem topLevel_array_not_rejected :
    getChangedFields (mkArr 0 [Value.vNum 1]) (mkObj 1 [("0", Value.vNum 1)]) {} =
      Except.ok []
    ∧ hasChanges (mkArr 0 [Value.vNum 1]) (mkObj 1 [("0", Value.vNum 1)]) {} =
      Except.ok false := ⟨rfl, rfl⟩

/-- C2 (amended): `getChangedFields` raises its single InvalidArgument error
exactly when `current` or `original` is not a truthy value of object runtime
type (null/absent, or any primitive — but a top-level array or date passes
validation); the error depends only on the two top-level values, never on any
field; `hasChanges` propagates exactly the same error rather than returning
false. -/
theorem invalid_args_error_iff (c o : Value) (options : CompareOptions) :
    ((getChangedFields c o options).isOk = (isObjectLike c && isObjectLike o))
    ∧ ((hasChanges c o options).isOk = (isObjectLike c && isObjectLike o))
    ∧ (isObjectLike c = false ∨ isObjectLike o = false →
        getChangedFields c o options =
            Except.error "Both currentValue and originalValue must be objects"
          ∧ hasChanges c o options =
            Except.error "Both currentValue and originalValue must be objects") := by
  cases c <;> cases o <;>
    simp [getChangedFields, hasChanges, isObjectLike, isFalsy, isTypeofObject,
      Except.map, Except.isOk, Except.toBool]

theorem invalid_args_error_iff_witness :
    getChangedFields (Value.vNum 5) (mkObj 0 [("a", Value.vNum 1)]) {} =
        Except.error "Both currentValue and originalValue must be objects"
      ∧ hasChanges (Value.vNum 5) (mkObj 0 [("a", Value.vNum 1)]) {} =
        Except.error "Both currentValue and originalValue must be objects" :=
  (invalid_args_error_iff (Value.vNum 5) (mkObj 0 [("a", Value.vNum 1)]) {}).2.2
    (Or.inl rfl)

/-- C3 (evaluation at the failing input): for `current = {age: null}`,
`original = {age: 30}` the code records `age` in the result under BOTH settings
of `includeNullish` — the skip rule fires only when both values are nullish, so
with `includeNullish:false` the result is `{age: null}`, not the empty mapping
claimed by the spec (and by the source's own option documentation and README). -/
theorem nullish_to_value_change_recorded :
    getChangedFields (mkObj 0 [("age", Value.vNull)]) (mkObj 1 [("age", Value.vNum 30)])
        {} = Except.ok [("age", Value.vNull)]
    ∧ getChangedFields (mkObj 0 [("age", Value.vNull)]) (mkObj 1 [("age", Value.vNum 30)])
        { includeNullish := true } = Except.ok [("age", Value.vNull)] := ⟨rfl, rfl⟩

/-- C10: the diff is not symmetric — with `u = {a:1}` and `v = {a:1, b:2}`,
`hasChanges u v` is false but `hasChanges v u` is true (top-level iteration is
driven by current's keys); likewise the deep record comparator reads original
only at current's keys, so nested-record equality is asymmetric too. -/
theorem diff_not_symmetric :
    hasChanges (mkObj 0 [("a", Value.vNum 1)])
        (mkObj 1 [("a", Value.vNum 1), ("b", Value.vNum 2)]) {} = Except.ok false
    ∧ hasChanges (mkObj 1 [("a", Value.vNum 1), ("b", Value.vNum 2)])
        (mkObj 0 [("a", Value.vNum 1)]) {} = Except.ok true
    ∧ areEqual true (mkObj 2 [("a", Value.vNum 1), ("b", Value.vUndefined)])
        (mkObj 3 [("a", Value.vNum 1), ("c", Value.vNum 2)]) = true
    ∧ areEqual true (mkObj 3 [("a", Value.vNum 1), ("c", Value.vNum 2)])
        (mkObj 2 [("a", Value.vNum 1), ("b", Value.vUndefined)]) = false :=
  ⟨rfl, rfl, rfl, rfl⟩

/-- C4: under `includeNullish = false`, a field of current without a custom
comparator and not ignored whose value and whose counterpart in original are
both nullish (null or absent, in any combination) is omitted from the result. -/
theorem bothNullish_field_omitted (rc : Nat) (fs : FieldList) (o : Value)
    (options : CompareOptions) (res : List (String × Value)) (k : String)
    (hnd : (jsKeys (Value.vObj rc fs)).Nodup)
    (hinc : options.includeNullish = false)
    (hcomp : options.customComparators.find? (fun p => p.1 == k) = none)
    (hign : options.ignoreFields.contains k = false)
    (hck : isNullish (getKey (Value.vObj rc fs) k) = true)
    (hok : isNullish (getKey o k) = true)
    (hres : getChangedFields (Value.vObj rc fs) o options = Except.ok res) :
    ∀ v : Value, (k, v) ∉ res := by
  intro v hv
  rw [getChangedFields_ok hres] at hv
  obtain ⟨e, he, hin⟩ := mem_foldl_diffStep.mp hv
  rcases diffStep_nil_eq options o e with h0 | h0
  · rw [h0] at hin
    simp at hin
  · rw [h0] at hin
    have heq : e = (k, v) := (List.mem_singleton.mp hin).symm
    rw [heq] at he h0
    have hkv : fieldLookup fs k = v := fieldLookup_eq_of_mem hnd he
    have hvn : isNullish v = true := by
      rw [← hkv]
      exact hck
    have hstep : diffStep options o [] (k, v) = [] := by
      simp [diffStep, hcomp, hinc, hvn, hok]
    rw [hstep] at h0
    simp at h0

theorem bothNullish_field_omitted_witness :
    ("age", Value.vNull) ∉ ([] : List (String × Value)) :=
  bothNullish_field_omitted 0 (FieldList.ofList [("age", Value.vNull)])
    (mkObj 1 [("x", Value.vNum 1)]) {} [] "age" (by decide) rfl rfl rfl rfl rfl rfl
    Value.vNull

/-- C9: a field of current with a registered custom comparator (and not
ignored) is recorded — with value `current[k]` — iff the comparator applied to
`(current[k], original[k])` returns false; no default logic runs for the field,
so the nullish policy and built-in equality impose no further conditions. -/
theorem custom_comparator_overrides (rc : Nat) (fs : FieldList) (o : Value)
    (options : CompareOptions) (res : List (String × Value)) (k : String)
    (cpr : String × (Value → Value → Bool)) (cf : Value)
    (hnd : (jsKeys (Value.vObj rc fs)).Nodup)
    (hign : options.ignoreFields.contains k = false)
    (hcomp : options.customComparators.find? (fun p => p.1 == k) = some cpr)
    (hmem : (k, cf) ∈ jsEntries (Value.vObj rc fs))
    (hres : getChangedFields (Value.vObj rc fs) o options = Except.ok res) :
    (cpr.2 cf (getKey o k) = true → ∀ v : Value, (k, v) ∉ res)
    ∧ (cpr.2 cf (getKey o k) = false → (k, cf) ∈ res)
    ∧ (∀ v : Value, (k, v) ∈ res → v = cf) := by
  have hcf : fieldLookup fs k = cf := fieldLookup_eq_of_mem hnd hmem
  have huniq : ∀ v : Value, (k, v) ∈ res → v = cf := by
    intro v hv
    rw [getChangedFields_ok hres] at hv
    obtain ⟨e, he, hin⟩ := mem_foldl_diffStep.mp hv
    rcases diffStep_nil_eq options o e with h0 | h0
    · rw [h0] at hin
      simp at hin
    · rw [h0] at hin
      have heq : e = (k, v) := (List.mem_singleton.mp hin).symm
      rw [heq] at he
      rw [← hcf]
      exact (fieldLookup_eq_of_mem hnd he).symm
  refine ⟨?_, ?_, huniq⟩
  · intro hT v hv
    have hvcf : v = cf := huniq v hv
    subst hvcf
    rw [getChangedFields_ok hres] at hv
    obtain ⟨e, he, hin⟩ := mem_foldl_diffStep.mp hv
    rcases diffStep_nil_eq options o e with h0 | h0
    · rw [h0] at hin
      simp at hin
    · rw [h0] at hin
      have heq : e = (k, v) := (List.mem_singleton.mp hin).symm
      rw [heq] at h0
      have hstep : diffStep options o [] (k, v) = [] := by
        simp [diffStep, hcomp, hT]
      rw [hstep] at h0
      simp at h0
  · intro hF
    have hig2 : k ∉ options.ignoreFields := by simpa using hign
    rw [getChangedFields_ok hres]
    refine mem_foldl_diffStep.mpr ⟨(k, cf), hmem, ?_⟩
    simp [diffStep, hig2, hcomp, hF]

theorem custom_comparator_overrides_witness :
    ("p", Value.vNull) ∈ [("p", Value.vNull)] :=
  (custom_comparator_overrides 0 (FieldList.ofList [("p", Value.vNull)])
    (mkObj 1 [("p", Value.vNull)])
    { customComparators := [("p", fun _ _ => false)] } [("p", Value.vNull)] "p"
    ("p", fun _ _ => false) Value.vNull (by decide) rfl rfl
    (List.mem_singleton.mpr rfl) rfl).2.1 rfl

theorem fieldList_toList_length (fs : FieldList) : fs.toList.length = fs.length := by
  induction fs using fieldListInduction with
  | hnil => rfl
  | hcons k v fs ih => simp [FieldList.toList, FieldList.length, ih]

theorem jsKeys_vObj_length (r : Nat) (fs : FieldList) :
    (jsKeys (Value.vObj r fs)).length = fs.length := by
  simp [jsKeys, jsEntries, fieldList_toList_length]

theorem areEqualObjEntries_eq_all (deep : Bool) (fs : FieldList) (o : Value) :
    areEqualObjEntries deep fs o =
      fs.toList.all (fun e => areEqual deep e.2 (getKey o e.1)) := by
  induction fs using fieldListInduction with
  | hnil => rfl
  | hcons k v fs ih => simp [areEqualObjEntries, FieldList.toList, ih]

theorem areEqualElems_eq_zip_all (deep : Bool) (es1 es2 : ValueList) :
    areEqualElems deep es1 es2 =
      (es1.toList.zip es2.toList).all (fun p => areEqual deep p.1 p.2) := by
  induction es1 using valueListInduction generalizing es2 with
  | hnil => cases es2 <;> rfl
  | hcons v vs ih =>
    cases es2 with
    | nil => rfl
    | cons w ws => simp [areEqualElems, ValueList.toList, ih]

theorem valueList_toList_length (es : ValueList) : es.toList.length = es.length := by
  induction es using valueListInduction with
  | hnil => rfl
  | hcons v vs ih => simp [ValueList.toList, ValueList.length, ih]

theorem withIndices_length (l : List Value) : ∀ i : Nat, (withIndices i l).length = l.length := by
  induction l with
  | nil => intro i; rfl
  | cons v vs ih => intro i; simp [withIndices, ih]

theorem jsKeys_vArr_length (r : Nat) (es : ValueList) :
    (jsKeys (Value.vArr r es)).length = es.length := by
  simp [jsKeys, jsEntries, withIndices_length, valueList_toList_length]

theorem areEqualArrEntries_eq_all (deep : Bool) (es : ValueList) (o : Value) :
    ∀ i : Nat, areEqualArrEntries deep i es o =
      (withIndices i es.toList).all (fun e => areEqual deep e.2 (getKey o e.1)) := by
  induction es using valueListInduction with
  | hnil => intro i; rfl
  | hcons v vs ih => intro i; simp [areEqualArrEntries, ValueList.toList, withIndices, ih]

/-- C5 counterexample: a distinct array instance IS judged deep-equal to a plain
record with coinciding indexed contents, even though the two are not strictly
identical — the pair does not fall through to the strict-identity fallback. -/
theorem array_vs_record_deep_equal :
    areEqual true (mkArr 0 [Value.vNum 1]) (mkObj 1 [("0", Value.vNum 1)]) = true
    ∧ strictEq (mkArr 0 [Value.vNum 1]) (mkObj 1 [("0", Value.vNum 1)]) = false :=
  ⟨rfl, rfl⟩

/-- C5 (amended): a mismatched array/record pair is handled by the record
branch, not the strict-identity fallback (`typeof array === "object"`): in
shallow mode the two are never equal (reference comparison of distinct kinds);
in deep mode — for every such pair — equality is decided by the record rule:
the own-key counts must match and every own key of current must yield
recursively equal values when looked up in original (current's index keys in
the record when current is the array, current's field keys in the array when
current is the record).  Hence a distinct array instance is judged equal to a
plain record exactly when counts match and indexed contents coincide, as the
concrete instances illustrate. -/
theorem array_vs_record_record_branch (r1 r2 : Nat) (es : ValueList) (fs : FieldList) :
    areEqual false (Value.vArr r1 es) (Value.vObj r2 fs) = false
    ∧ areEqual false (Value.vObj r2 fs) (Value.vArr r1 es) = false
    ∧ areEqual true (Value.vArr r1 es) (Value.vObj r2 fs) =
        (es.length == fs.length
          && (withIndices 0 es.toList).all
            (fun e => areEqual true e.2 (getKey (Value.vObj r2 fs) e.1)))
    ∧ areEqual true (Value.vObj r2 fs) (Value.vArr r1 es) =
        (fs.length == es.length
          && fs.toList.all (fun e => areEqual true e.2 (getKey (Value.vArr r1 es) e.1)))
    ∧ areEqual true (mkArr 0 [Value.vNum 1]) (mkObj 1 [("0", Value.vNum 1)]) = true
    ∧ areEqual true (mkArr 0 [Value.vNum 1]) (mkObj 1 [("0", Value.vNum 2)]) = false := by
  refine ⟨rfl, rfl, ?_, ?_, rfl, rfl⟩
  · cases h : es.length == fs.length <;>
      simp [areEqual, isPrimitive, bne, jsKeys_vObj_length, h, areEqualArrEntries_eq_all]
  · cases h : fs.length == es.length <;>
      simp [areEqual, isPrimitive, bne, jsKeys_vArr_length, h, areEqualObjEntries_eq_all]

/-- C6: in deep mode, comparison of two records first fails when their own-key
counts differ, and otherwise is decided solely by looking current's keys up in
original (a key missing from original reads as `undefined`; there is no
symmetric key-set check) — so `{a:1, b:undefined}` is judged equal to
`{a:1, c:2}` despite different key names, while a genuine count mismatch is
unequal. -/
theorem deep_record_compare_by_current_keys (r1 r2 : Nat) (fs1 fs2 : FieldList) :
    areEqual true (Value.vObj r1 fs1) (Value.vObj r2 fs2) =
      (fs1.length == fs2.length
        && fs1.toList.all (fun e => areEqual true e.2 (getKey (Value.vObj r2 fs2) e.1)))
    ∧ areEqual true (mkObj 0 [("a", Value.vNum 1), ("b", Value.vUndefined)])
        (mkObj 1 [("a", Value.vNum 1), ("c", Value.vNum 2)]) = true
    ∧ areEqual true (mkObj 0 [("a", Value.vNum 1)])
        (mkObj 1 [("a", Value.vNum 1), ("b", Value.vNum 2)]) = false := by
  refine ⟨?_, rfl, rfl⟩
  cases h : fs1.length == fs2.length <;>
    simp [areEqual, isPrimitive, bne, jsKeys_vObj_length, h, areEqualObjEntries_eq_all]

/-- C7: for `current = {a:[1]}` and `original = {a:[1]}` with distinct array
instances of equal contents, `deep:true` yields the empty result and
`deep:false` yields `{a:[1]}`; in general, shallow mode judges two distinct
array instances unequal regardless of contents, while deep mode compares
elements at equal indices after an equal-length check. -/
theorem shallow_vs_deep_array (r1 r2 : Nat) (es1 es2 : ValueList) (h : r1 ≠ r2) :
    getChangedFields (mkObj 0 [("a", mkArr 10 [Value.vNum 1])])
        (mkObj 1 [("a", mkArr 11 [Value.vNum 1])]) {} = Except.ok []
    ∧ getChangedFields (mkObj 0 [("a", mkArr 10 [Value.vNum 1])])
        (mkObj 1 [("a", mkArr 11 [Value.vNum 1])]) { deep := false } =
        Except.ok [("a", mkArr 10 [Value.vNum 1])]
    ∧ areEqual false (Value.vArr r1 es1) (Value.vArr r2 es2) = false
    ∧ areEqual true (Value.vArr r1 es1) (Value.vArr r2 es2) =
        (es1.length == es2.length
          && (es1.toList.zip es2.toList).all (fun p => areEqual true p.1 p.2)) := by
  refine ⟨rfl, rfl, ?_, ?_⟩
  · cases h2 : es1.length == es2.length <;>
      simp [areEqual, isPrimitive, bne, h2, beq_eq_false_iff_ne.mpr h]
  · cases h2 : es1.length == es2.length <;>
      simp [areEqual, isPrimitive, bne, h2, areEqualElems_eq_zip_all]

theorem shallow_vs_deep_array_witness :
    areEqual false (Value.vArr 0 ValueList.nil) (Value.vArr 1 ValueList.nil) = false :=
  (shallow_vs_deep_array 0 1 ValueList.nil ValueList.nil (by decide)).2.2.1

/-- C8: two date values are judged equal iff their epoch-millisecond instants
are equal, whatever their references, in both modes (the rule sits in the
primitive branch, checked before the sequence and record branches), and hence
also wherever dates are compared at nested positions. -/
theorem dates_compare_by_instant (deep : Bool) (r1 r2 : Nat) (t1 t2 : Int) :
    areEqual deep (Value.vDate r1 t1) (Value.vDate r2 t2) = (t1 == t2)
    ∧ areEqual true (mkObj 0 [("d", Value.vDate 1 1704067200000)])
        (mkObj 1 [("d", Value.vDate 2 1704067200000)]) = true
    ∧ getChangedFields (mkObj 0 [("d", Value.vDate 1 5)])
        (mkObj 1 [("d", Value.vDate 2 5)]) {} = Except.ok []
    ∧ getChangedFields (mkObj 0 [("d", Value.vDate 1 5)])
        (mkObj 1 [("d", Value.vDate 2 5)]) { deep := false } = Except.ok [] :=
  ⟨rfl, rfl, rfl, rfl⟩

end ObjectCompare
